import Mathlib

set_option autoImplicit false

/-!
Shallow embedding of the gofp library (fp.go, plus the earlier revision kept
alongside it) and proofs about its pipeline, dynamic-adapter and Maybe layers.

A Go value travelling through a pipeline is an interface value; here it is a
`GoVal`.  A closed conduit is the list of values its producer wrote before
closing; a receive on a closed, drained channel returns the zero value
(`VNil`) rather than blocking or failing.  Run-time panics (reflection
failures, nil function calls, integer division by zero, slice index errors)
are modelled with `Except GoPanic`.
-/

namespace gofp

/-- An interface value carried by a pipeline. -/
inductive GoVal : Type where
  | VInt : Int → GoVal
  | VBool : Bool → GoVal
  | VNil : GoVal
  deriving DecidableEq, Repr

/-- The run-time panics the modelled code can raise. -/
inductive GoPanic : Type where
  | notAFunction
  | badArg
  | notBool
  | nilFuncCall
  | divByZero
  | indexOutOfRange
  deriving DecidableEq, Repr

/-- Dynamic types checked by reflect.Call. -/
inductive GoType : Type where
  | TInt
  | TBool
  deriving DecidableEq, Repr

def typeOf : GoVal → Option GoType
  | .VInt _ => some .TInt
  | .VBool _ => some .TBool
  | .VNil => none

/-- A callable Go value: declared argument types and the underlying body. -/
structure GoCallable where
  argTypes : List GoType
  impl : List GoVal → GoVal

def argsMatch : List GoType → List GoVal → Bool
  | [], [] => true
  | t :: ts, v :: vs => (typeOf v == some t) && argsMatch ts vs
  | _, _ => false

/-- An arbitrary interface value handed to NewFunc: either callable or not. -/
inductive GoFunVal : Type where
  | callable (c : GoCallable)
  | notCallable (v : GoVal)

/-- Func (fp.go:272): a variadic closure producing a reflect.Value. -/
abbrev Func : Type := List GoVal → Except GoPanic GoVal

/-- reflect.Value.Call: panics unless the argument list matches the
callable's declared shape, then runs the body. -/
def reflectCall (c : GoCallable) (args : List GoVal) : Except GoPanic GoVal :=
  if argsMatch c.argTypes args then .ok (c.impl args) else .error .badArg

/-- NewFunc (fp.go:275-285).  The body only builds a closure; reflection
(reflect.ValueOf and Call) runs when the closure is invoked, so a
non-callable argument is only detected at call time. -/
def NewFunc (f : GoFunVal) : Func :=
  fun args =>
    match f with
    | .callable c => reflectCall c args
    | .notCallable _ => .error .notAFunction

/-- Func.Call (fp.go:288-290). -/
def Func.Call (f : Func) (args : List GoVal) : Except GoPanic GoVal := f args

/-- Func.Flip (fp.go:300-304): the call receives the tail of args with the
head appended at the end, so the first argument moves to the last position;
an empty argument list panics indexing the head. -/
def Func.Flip (f : Func) : Func :=
  fun args =>
    match args with
    | [] => .error .indexOutOfRange
    | a :: rest => Func.Call f (rest ++ [a])

/-- Func.Curry (fp.go:293-297). -/
def Func.Curry (f : Func) (vs : List GoVal) : Func :=
  fun args => Func.Call f (vs ++ args)

abbrev MapFunc : Type := GoVal → Except GoPanic GoVal
abbrev FilterFunc : Type := GoVal → Except GoPanic Bool
abbrev ReduceFunc : Type := GoVal → GoVal → Except GoPanic GoVal

/-- Func.ToMapFunc (fp.go:328-332). -/
def Func.ToMapFunc (f : Func) : MapFunc :=
  fun v => Func.Call f [v]

/-- reflect.Value.Bool: panics unless the value's kind is Bool. -/
def asBool : GoVal → Except GoPanic Bool
  | .VBool b => .ok b
  | _ => .error .notBool

/-- Func.ToFilterFunc (fp.go:350-354): calls f, then reflect.Value.Bool on
the result, which panics at call time when the result is not boolean. -/
def Func.ToFilterFunc (f : Func) : FilterFunc :=
  fun v => (Func.Call f [v]).bind asBool

/-- Func.ToReduceFunc (fp.go:365-369). -/
def Func.ToReduceFunc (f : Func) : ReduceFunc :=
  fun v1 v2 => Func.Call f [v1, v2]

/-- A closed conduit: the values its producer wrote, in order. -/
abbrev Pipeline : Type := List GoVal

/-- A receive on a conduit: a closed, drained channel yields the zero value
immediately, never an error. -/
def recv : Pipeline → GoVal × Pipeline
  | [] => (.VNil, [])
  | v :: rest => (v, rest)

/-- Pipeline.TakeAll (fp.go:107-113). -/
def Pipeline.TakeAll : Pipeline → List GoVal
  | [] => []
  | v :: rest => v :: Pipeline.TakeAll rest

/-- The range-loop of Pipeline.Take after the n ≤ 0 guard: append the
value, decrement, break once the counter reaches zero.  Returns the taken
values together with the state the conduit is left in. -/
def takeLoop : Pipeline → Int → List GoVal × Pipeline
  | [], _ => ([], [])
  | v :: rest, n =>
      if n - 1 ≤ 0 then ([v], rest)
      else
        let p := takeLoop rest (n - 1)
        (v :: p.1, p.2)

/-- Pipeline.Take (fp.go:116-129). -/
def Pipeline.Take (pl : Pipeline) (n : Int) : List GoVal × Pipeline :=
  if n ≤ 0 then ([], pl) else takeLoop pl n

/-- The counted discard loop of Pipeline.Drop. -/
def dropLoop : Pipeline → Nat → Pipeline
  | pl, 0 => pl
  | pl, n + 1 => dropLoop (recv pl).2 n

/-- Pipeline.Drop (fp.go:141-146): discards the next n receives and returns
the (advanced) conduit; the loop body runs max(n,0) times. -/
def Pipeline.Drop (pl : Pipeline) (n : Int) : Pipeline :=
  dropLoop pl n.toNat

/-- The shapes Pipeline.Map's switch accepts (fp.go:157-166). -/
inductive MapArg : Type where
  | rawFunc (g : GoVal → GoVal)
  | mapFunc (mf : MapFunc)
  | func (f : Func)
  | other (f : GoFunVal)

def toMapFunc : MapArg → MapFunc
  | .rawFunc g => fun v => .ok (g v)
  | .mapFunc mf => mf
  | .func f => Func.ToMapFunc f
  | .other f => Func.ToMapFunc (NewFunc f)

def mapLoop (mf : MapFunc) : Pipeline → Except GoPanic (List GoVal)
  | [] => .ok []
  | v :: rest => (mf v).bind fun r => (mapLoop mf rest).map fun rs => r :: rs

/-- Pipeline.Map (fp.go:155-172): dispatch on the transform's shape, then
feed every value through it. -/
def Pipeline.Map (pl : Pipeline) (f : MapArg) : Except GoPanic Pipeline :=
  mapLoop (toMapFunc f) pl

/-- The shapes Pipeline.Filter's switch accepts (fp.go:177-186). -/
inductive FilterArg : Type where
  | rawFunc (g : GoVal → Bool)
  | filterFunc (ff : FilterFunc)
  | func (f : Func)
  | other (f : GoFunVal)

def toFilterFunc : FilterArg → FilterFunc
  | .rawFunc g => fun v => .ok (g v)
  | .filterFunc ff => ff
  | .func f => Func.ToFilterFunc f
  | .other f => Func.ToFilterFunc (NewFunc f)

def filterLoop (ff : FilterFunc) : Pipeline → Except GoPanic (List GoVal)
  | [] => .ok []
  | v :: rest =>
      (ff v).bind fun keep =>
        (filterLoop ff rest).map fun rs => if keep then v :: rs else rs

/-- Pipeline.Filter (fp.go:175-194): forward exactly the values on which
the predicate holds, in order, dropping the rest. -/
def Pipeline.Filter (pl : Pipeline) (f : FilterArg) : Except GoPanic Pipeline :=
  filterLoop (toFilterFunc f) pl

/-- The shapes Pipeline.Reduce's switch accepts (fp.go:199-208). -/
inductive ReduceArg : Type where
  | rawFunc (g : GoVal → GoVal → GoVal)
  | reduceFunc (rf : ReduceFunc)
  | func (f : Func)
  | other (f : GoFunVal)

/-- Dispatch in Pipeline.Reduce.  In the raw-function case the source reads
rf = ReduceFunc(rf) (fp.go:201), converting the still-nil rf instead of the
matched value ft, so rf stays a nil function; none models that nil. -/
def toReduceFunc : ReduceArg → Option ReduceFunc
  | .rawFunc _ => none
  | .reduceFunc rf => some rf
  | .func f => some (Func.ToReduceFunc f)
  | .other f => some (Func.ToReduceFunc (NewFunc f))

/-- The fold loop of Pipeline.Reduce: result = rf.Reduce(i, result); calling
a nil function value panics. -/
def reduceLoop (orf : Option ReduceFunc) : Pipeline → GoVal → Except GoPanic GoVal
  | [], acc => .ok acc
  | v :: rest, acc =>
      match orf with
      | none => .error .nilFuncCall
      | some rf => (rf v acc).bind fun acc2 => reduceLoop orf rest acc2

/-- Pipeline.Reduce (fp.go:197-214). -/
def Pipeline.Reduce (pl : Pipeline) (f : ReduceArg) (init : GoVal) : Except GoPanic GoVal :=
  reduceLoop (toReduceFunc f) pl init

/-- abs (fp.go:63-68). -/
def abs (i : Int) : Int := if i < 0 then -i else i

/-- Go integer division: truncated, panicking on a zero divisor. -/
def goIntDiv (a b : Int) : Except GoPanic Int :=
  if b = 0 then .error .divByZero else .ok (Int.tdiv a b)

/-- What constructing a range pipeline yields: a conduit that closes after
the listed values, a producer that loops forever (step factor 0), or the
nil pipeline of Range's default branch. -/
inductive PipeResult : Type where
  | vals (vs : List GoVal)
  | diverge
  | nilPipe
  deriving DecidableEq, Repr

/-- The generator loop of RangeStep: for i := 0; abs(i) < abs(t); i += s.
When s ≠ 0, abs(i) grows by abs(s) ≥ 1 each pass, so t.natAbs + 1 fuel is
never exhausted; exhaustion (none) happens exactly when s = 0 and the Go
loop never terminates. -/
def rangeLoop (start t s : Int) : Int → Nat → Option (List GoVal)
  | _, 0 => none
  | i, fuel + 1 =>
      if i.natAbs < t.natAbs then
        (rangeLoop start t s (i + s) fuel).map fun l => .VInt (start + i) :: l
      else some []

/-- RangeStep (fp.go:72-84): step defaults to 1, t = end - start, and the
direction factor t / abs(t) divides by zero when start = end. -/
def RangeStep (start e : Int) (steps : List Int) : Except GoPanic PipeResult :=
  let step := match steps with | [] => 1 | s :: _ => s
  let t := e - start
  (goIntDiv t (abs t)).map fun d =>
    match rangeLoop start t (step * d) 0 (t.natAbs + 1) with
    | some vs => .vals vs
    | none => .diverge

/-- Range (fp.go:50-61): arity dispatch onto RangeStep; more than two
variadic arguments yield a nil pipeline. -/
def Range (init : Int) (r : List Int) : Except GoPanic PipeResult :=
  match r with
  | [] => RangeStep 0 init []
  | [e] => RangeStep init e []
  | [e, s] => RangeStep init e [s]
  | _ => .ok .nilPipe

/-- The Maybe states reachable through Nothing and Just (fp.go:217-230);
the pointer comparison m == Nothing holds exactly for the nothing state. -/
inductive Maybe : Type where
  | nothing
  | just (v : GoVal)
  deriving DecidableEq, Repr

/-- Just (fp.go:225-230): wrapping nil collapses to Nothing. -/
def Just (v : GoVal) : Maybe :=
  if v = .VNil then .nothing else .just v

/-- Maybe.Map (fp.go:233-249): Nothing short-circuits before the transform
is even adapted; otherwise adapt, apply to the contained value, rewrap. -/
def Maybe.Map (m : Maybe) (f : MapArg) : Except GoPanic Maybe :=
  match m with
  | .nothing => .ok .nothing
  | .just v => ((toMapFunc f) v).map Just

end gofp

-- The earlier revision of the library kept in the repository, whose Map is
-- variadic over pure MapFunc transforms applied in argument order.
namespace gofp0

abbrev MapFunc : Type := gofp.GoVal → gofp.GoVal

/-- The inner for-loop over the transform slice: i = f(i) left to right. -/
def applyAll : List MapFunc → gofp.GoVal → gofp.GoVal
  | [], v => v
  | f :: fs, v => applyAll fs (f v)

def mapLoop (fs : List MapFunc) : List gofp.GoVal → List gofp.GoVal
  | [] => []
  | v :: rest => applyAll fs v :: mapLoop fs rest

/-- Pipeline.Map of the earlier revision: each incoming value is threaded
through every transform in argument order, and the final result is sent
downstream. -/
def Pipeline.Map (pl : List gofp.GoVal) (fs : List MapFunc) : List gofp.GoVal :=
  mapLoop fs pl

end gofp0

namespace gofp

/-- A callable of one int argument returning it unchanged, like a Go
func(i int) int identity; its result is never boolean. -/
def intIdent : GoCallable :=
  ⟨[.TInt], fun args => match args with | [v] => v | _ => .VNil⟩

/-- Integer addition as a raw combiner value. -/
def addRaw : GoVal → GoVal → GoVal
  | .VInt a, .VInt b => .VInt (a + b)
  | _, _ => .VNil

/-- Integer addition as a typed two-argument callable, like the Go test
combiner func(i, j int) int. -/
def addCallable : GoCallable :=
  ⟨[.TInt, .TInt], fun args =>
    match args with
    | [.VInt a, .VInt b] => .VInt (a + b)
    | _ => .VNil⟩

/-- The increment transform func(i int) int of the examples. -/
def incCallable : GoCallable :=
  ⟨[.TInt], fun args => match args with | [.VInt a] => .VInt (a + 1) | _ => .VNil⟩

/-- The doubling transform func(i int) int of the examples. -/
def dblCallable : GoCallable :=
  ⟨[.TInt], fun args => match args with | [.VInt a] => .VInt (a * 2) | _ => .VNil⟩

/-- The evenness predicate func(i int) bool of the examples. -/
def evenCallable : GoCallable :=
  ⟨[.TInt], fun args => match args with | [.VInt a] => .VBool (a % 2 == 0) | _ => .VNil⟩

/-- A three-argument callable whose result records its argument order as
decimal digits, separating any two permutations of distinct arguments. -/
def tripleDigits : GoCallable :=
  ⟨[.TInt, .TInt, .TInt], fun args =>
    match args with
    | [.VInt a, .VInt b, .VInt c] => .VInt (100 * a + 10 * b + c)
    | _ => .VNil⟩

/-- The conduit carrying 1,2,3,4. -/
def oneToFour : Pipeline := [.VInt 1, .VInt 2, .VInt 3, .VInt 4]

/-- The conduit carrying 1,2,3,4,5. -/
def oneToFive : Pipeline := [.VInt 1, .VInt 2, .VInt 3, .VInt 4, .VInt 5]

/-- The conduit carrying the integers of the half-open range from 0 to 10. -/
def zeroToNine : Pipeline :=
  [.VInt 0, .VInt 1, .VInt 2, .VInt 3, .VInt 4, .VInt 5, .VInt 6, .VInt 7, .VInt 8, .VInt 9]

/-- C1: the claim fails on the code.  A predicate adapter built over a
callable returning int is constructed without complaint (NewFunc and
ToFilterFunc merely build closures) and then fails at its first invocation
with a boolean-conversion panic; likewise wrapping a plain non-callable
value succeeds and only the invocation fails. -/
theorem C1_counterexample :
    Func.ToFilterFunc (NewFunc (.callable intIdent)) (.VInt 5) = .error .notBool ∧
    NewFunc (.notCallable (.VInt 3)) [.VInt 0] = .error .notAFunction :=
  ⟨rfl, rfl⟩

/-- C1 (amended): adapter construction performs no type validation at all —
NewFunc and the converters only build closures, so construction always
succeeds; wrapping a non-callable fails at every invocation with a
not-a-function panic, and a predicate adapter over a callable whose result
is not boolean fails at invocation with a boolean-conversion panic. -/
theorem C1_validation_at_invocation :
    (∀ (v : GoVal) (args : List GoVal), NewFunc (.notCallable v) args = .error .notAFunction) ∧
    (∀ (c : GoCallable) (v : GoVal),
      argsMatch c.argTypes [v] = true →
      (∀ b, c.impl [v] ≠ .VBool b) →
      Func.ToFilterFunc (NewFunc (.callable c)) v = .error .notBool) := by
  constructor
  · intro v args; rfl
  · intro c v hargs hnb
    have hok : Func.Call (NewFunc (.callable c)) [v] = .ok (c.impl [v]) := by
      simp [Func.Call, NewFunc, reflectCall, hargs]
    unfold Func.ToFilterFunc
    rw [hok]
    cases h : c.impl [v] with
    | VInt a => rfl
    | VBool b => exact absurd h (hnb b)
    | VNil => rfl

/-- C1 witness: the amended statement applied to the identity-on-int
callable and to a wrapped plain integer. -/
theorem C1_validation_at_invocation_witness :
    NewFunc (.notCallable (.VInt 3)) [.VInt 1] = .error .notAFunction ∧
    Func.ToFilterFunc (NewFunc (.callable intIdent)) (.VInt 7) = .error .notBool :=
  ⟨C1_validation_at_invocation.1 (.VInt 3) [.VInt 1],
   C1_validation_at_invocation.2 intIdent (.VInt 7) (by decide) (by decide)⟩

/-- C2: at the failing input — the combiner passed in the raw
two-interface-argument shape — Reduce calls a nil function value and panics
on the first element instead of folding, because the raw case converts the
still-nil local rf rather than the matched value; the same combiner in the
reflected shape folds to 15 over 1..5 with seed 0, and for every pure
combiner in the ReduceFunc shape Reduce is the specified left fold with
argument order new-value first, accumulator second. -/
theorem C2_reduce_raw_shape_panics :
    Pipeline.Reduce oneToFive (.rawFunc addRaw) (.VInt 0) = .error .nilFuncCall ∧
    Pipeline.Reduce oneToFive (.other (.callable addCallable)) (.VInt 0) = .ok (.VInt 15) ∧
    (∀ (g : GoVal → GoVal → GoVal) (pl : Pipeline) (init : GoVal),
      Pipeline.Reduce pl (.reduceFunc (fun a b => .ok (g a b))) init =
        .ok (pl.foldl (fun acc v => g v acc) init)) := by
  refine ⟨rfl, rfl, ?_⟩
  intro g pl init
  induction pl generalizing init with
  | nil => rfl
  | cons v rest ih => exact ih (g v init)

/-- C3: Drop discards exactly the next n receives and returns the advanced
conduit, so dropping 5 from the conduit of 0..9 and then taking all yields
5,6,7,8,9; on a closed conduit every receive returns immediately with the
zero value, so dropping more than the remaining count still returns, and
Drop agrees with dropping min(n,0-clamped) list elements for every conduit
and every count. -/
theorem C3_drop_then_takeall :
    Pipeline.TakeAll (Pipeline.Drop zeroToNine 5) =
      [.VInt 5, .VInt 6, .VInt 7, .VInt 8, .VInt 9] ∧
    (∀ (pl : Pipeline) (n : Int), Pipeline.Drop pl n = List.drop n.toNat pl) := by
  refine ⟨rfl, ?_⟩
  intro pl n
  show dropLoop pl n.toNat = List.drop n.toNat pl
  generalize n.toNat = k
  induction k generalizing pl with
  | zero => cases pl <;> rfl
  | succ k ih =>
      cases pl with
      | nil => simpa [dropLoop, recv] using ih []
      | cons v rest => simpa [dropLoop, recv] using ih rest

/-- The counted take loop computes list take and drop for positive counts. -/
theorem takeLoop_eq (pl : Pipeline) : ∀ (n : Int), 1 ≤ n →
    takeLoop pl n = (List.take n.toNat pl, List.drop n.toNat pl) := by
  induction pl with
  | nil => intro n hn; simp [takeLoop]
  | cons v rest ih =>
      intro n hn
      by_cases h : n - 1 ≤ 0
      · have hn1 : n = 1 := by omega
        subst hn1
        simp [takeLoop]
      · have h2 : 1 ≤ n - 1 := by omega
        have hnt : n.toNat = (n - 1).toNat + 1 := by omega
        have hstep : takeLoop (v :: rest) n
            = (v :: (takeLoop rest (n - 1)).1, (takeLoop rest (n - 1)).2) := by
          simp only [takeLoop, if_neg h]
        rw [hstep, ih (n - 1) h2, hnt]
        rfl

/-- C4: Take with a non-positive count returns the empty sequence leaving
the conduit untouched; with a positive count it returns the next min(n,k)
values in order, leaving the conduit advanced past them; and when n is at
least the remaining count k it returns exactly the k remaining values and
leaves the conduit at end-of-sequence. -/
theorem C4_take (pl : Pipeline) (n : Int) :
    (n ≤ 0 → Pipeline.Take pl n = ([], pl)) ∧
    (0 < n → Pipeline.Take pl n = (List.take n.toNat pl, List.drop n.toNat pl)) ∧
    (0 < n → pl.length ≤ n.toNat → Pipeline.Take pl n = (pl, [])) := by
  refine ⟨?_, ?_, ?_⟩
  · intro h; simp [Pipeline.Take, h]
  · intro h
    have h1 : ¬ n ≤ 0 := by omega
    simp [Pipeline.Take, h1, takeLoop_eq pl n (by omega)]
  · intro h hlen
    have h1 : ¬ n ≤ 0 := by omega
    simp [Pipeline.Take, h1, takeLoop_eq pl n (by omega),
      List.take_of_length_le hlen, List.drop_eq_nil_of_le hlen]

/-- C4 witness: taking a negative count leaves a one-element conduit
untouched, and taking 5 from a two-element conduit yields both values and
ends the conduit. -/
theorem C4_take_witness :
    Pipeline.Take [.VInt 7] (-1) = ([], [.VInt 7]) ∧
    Pipeline.Take [.VInt 7, .VInt 8] 5 = ([.VInt 7, .VInt 8], []) := by
  constructor
  · exact (C4_take [.VInt 7] (-1)).1 (by decide)
  · exact (C4_take [.VInt 7, .VInt 8] 5).2.2 (by decide) (by decide)

/-- C5: the variadic Map of the earlier revision applies its transforms
left to right, sending the second transform applied to the first's result
downstream for every input; and chaining the current single-transform Map
with increment then doubling over 1,2,3,4 yields 4,6,8,10. -/
theorem C5_map_compose :
    (∀ (pl : List GoVal) (f g : gofp0.MapFunc),
      gofp0.Pipeline.Map pl [f, g] = pl.map fun x => g (f x)) ∧
    (Pipeline.Map oneToFour (.other (.callable incCallable))).bind
        (fun pl2 => Pipeline.Map pl2 (.other (.callable dblCallable))) =
      .ok [.VInt 4, .VInt 6, .VInt 8, .VInt 10] := by
  constructor
  · intro pl f g
    induction pl with
    | nil => rfl
    | cons v rest ih =>
        simpa [gofp0.Pipeline.Map, gofp0.mapLoop, gofp0.applyAll] using ih
  · rfl

/-- C6: the integer-range source infers direction from the ordering of
start and end when the step is unspecified: Range over 0 and 4 yields
0,1,2,3, RangeStep over 0, 4 with step 2 yields 0,2, and Range over 0 and
-4 yields 0,-1,-2,-3. -/
theorem C6_range_examples :
    Range 0 [4] = .ok (.vals [.VInt 0, .VInt 1, .VInt 2, .VInt 3]) ∧
    RangeStep 0 4 [2] = .ok (.vals [.VInt 0, .VInt 2]) ∧
    Range 0 [-4] = .ok (.vals [.VInt 0, .VInt (-1), .VInt (-2), .VInt (-3)]) :=
  ⟨rfl, rfl, rfl⟩

/-- C7: Filter forwards exactly the subsequence of upstream values on
which the predicate holds, in upstream order and with nothing emitted for
dropped values; filtering 1..5 by evenness through the reflected adapter
yields exactly 2,4. -/
theorem C7_filter_subsequence :
    (∀ (pl : Pipeline) (g : GoVal → Bool),
      Pipeline.Filter pl (.rawFunc g) = .ok (pl.filter g)) ∧
    Pipeline.Filter oneToFive (.other (.callable evenCallable)) = .ok [.VInt 2, .VInt 4] := by
  constructor
  · intro pl g
    induction pl with
    | nil => rfl
    | cons v rest ih =>
        have ih2 : filterLoop (fun w => Except.ok (g w)) rest = Except.ok (List.filter g rest) := ih
        show (Except.ok (g v)).bind (fun keep =>
            Except.map (fun rs => if keep = true then v :: rs else rs)
              (filterLoop (fun w => Except.ok (g w)) rest)) = Except.ok (List.filter g (v :: rest))
        rw [ih2]
        cases hg : g v <;> simp [List.filter_cons, hg, Except.map, Except.bind]
  · rfl

/-- C8: the claim fails on the code.  Flip does not swap only the first
two arguments: on three arguments it moves the first argument to the end,
so the flipped call with arguments 1,2,3 equals the original call with
2,3,1 (digits 231) and differs from the original call with 2,1,3 (digits
213), which is what the claim asserts it equals. -/
theorem C8_counterexample :
    Func.Flip (NewFunc (.callable tripleDigits)) [.VInt 1, .VInt 2, .VInt 3] = .ok (.VInt 231) ∧
    Func.Call (NewFunc (.callable tripleDigits)) [.VInt 2, .VInt 1, .VInt 3] = .ok (.VInt 213) ∧
    Func.Flip (NewFunc (.callable tripleDigits)) [.VInt 1, .VInt 2, .VInt 3] ≠
      Func.Call (NewFunc (.callable tripleDigits)) [.VInt 2, .VInt 1, .VInt 3] := by
  refine ⟨rfl, rfl, fun h => ?_⟩
  exact absurd (Except.ok.inj h) (by decide)

/-- C8 (amended): Flip moves the first logical argument to the last
position — the flipped call on a head argument followed by the rest equals
the original call on the rest with the head appended — and therefore on
exactly two arguments it swaps them. -/
theorem C8_flip_first_to_last (f : Func) (a : GoVal) (rest : List GoVal) :
    Func.Flip f (a :: rest) = Func.Call f (rest ++ [a]) ∧
    (∀ b, Func.Flip f [a, b] = Func.Call f [b, a]) :=
  ⟨rfl, fun _ => rfl⟩

/-- C9: mapping over Nothing returns Nothing for every transform argument,
even a non-callable one, without invoking the adapter; mapping a raw
transform over a present value rewraps the transform's result through Just,
which collapses a nil result to Nothing; and mapping increment over Just 1
through the reflected adapter yields exactly Just 2. -/
theorem C9_maybe_map :
    (∀ (f : MapArg), Maybe.Map .nothing f = .ok .nothing) ∧
    (∀ (v : GoVal) (g : GoVal → GoVal),
      Maybe.Map (.just v) (.rawFunc g) = .ok (Just (g v))) ∧
    Maybe.Map (Just (.VInt 1)) (.other (.callable incCallable)) = .ok (Just (.VInt 2)) ∧
    Maybe.Map (Just (.VInt 1)) (.rawFunc fun _ => .VNil) = .ok Maybe.nothing :=
  ⟨fun _ => rfl, fun _ _ => rfl, rfl, rfl⟩

/-- C10: when start equals end the difference t is zero, so the direction
factor divides by zero and RangeStep panics instead of producing an empty
pipeline, whatever the step argument; when start differs from end the
division is well-defined and construction succeeds. -/
theorem C10_rangestep_direction (start e : Int) (steps : List Int) :
    (start = e → RangeStep start e steps = .error .divByZero) ∧
    (start ≠ e → ∃ r, RangeStep start e steps = .ok r) := by
  constructor
  · intro h; subst h
    simp [RangeStep, goIntDiv, abs, Except.map]
  · intro h
    have habs : ¬ (abs (e - start) = 0) := by
      unfold abs; split <;> omega
    simp only [RangeStep, goIntDiv, habs, if_false, Except.map]
    exact ⟨_, rfl⟩

/-- C10 witness: equal bounds panic with division by zero, distinct bounds
construct successfully. -/
theorem C10_rangestep_direction_witness :
    RangeStep 2 2 [] = .error .divByZero ∧ ∃ r, RangeStep 0 3 [] = .ok r :=
  ⟨(C10_rangestep_direction 2 2 []).1 rfl, (C10_rangestep_direction 0 3 []).2 (by decide)⟩

end gofp
